import Mathlib

/-!
Verification of the InetMVpn BGP table (`bgp/inetmvpn/inetmvpn_table.cc`):
partition hashing, string-form entry allocation, cross-table route
replication, RIB export, and the multicast tree-manager lifecycle.

Machine integers (`size_t`, `to_ulong`) are modelled as `Nat` with explicit
`% 2 ^ 64` where truncation matters.  Null pointers are `Option.none`.
Collaborator code that is not among the sources (the prefix parser, the
inet-table hash, the secondary-path accessors of `BgpRoute`, the tree
manager) is modelled from the spec and marked as such in its doc comment.
-/

set_option autoImplicit false

namespace InetMVpn

/-- Route-type discriminator of an InetMVpn prefix.  The source tests
`InetMVpnPrefix::NativeRoute`; the remaining replicated-route variants are
modelled from the spec (the prefix header is not among the sources). -/
inductive RouteType where
  | NativeRoute
  | CMcastRoute
  | TreeRoute
deriving DecidableEq, Repr

/-- Route distinguisher, an opaque disambiguating value. -/
abbrev RouteDistinguisher := Nat

/-- The distinguished null/zero RD (`RouteDistinguisher::null_rd`). -/
def null_rd : RouteDistinguisher := 0

/-- InetMVpn prefix: RD, multicast source and group addresses (in their
`to_ulong` numeric form) and the route-type discriminator. -/
structure InetMVpnPrefix where
  rd : RouteDistinguisher
  source : Nat
  group : Nat
  rtype : RouteType
deriving DecidableEq, Repr

/-- InetMVpnPrefix::set_route_distinguisher. -/
def set_route_distinguisher (p : InetMVpnPrefix) (rd : RouteDistinguisher) :
    InetMVpnPrefix :=
  { p with rd := rd }

/-- boost::hash_value of an unsigned long: the value itself as a `size_t`. -/
def boost_hash_value (v : Nat) : Nat := v % 2 ^ 64

/-- InetMVpnTable::HashFunction: hash of the prefix group address. -/
def HashFunction (p : InetMVpnPrefix) : Nat := boost_hash_value p.group

/-- An IPv4 prefix as built by `Ip4Prefix(addr, len)`. -/
structure Ip4Prefix where
  addr : Nat
  plen : Nat
deriving DecidableEq, Repr

/-- Modelled from the spec: `InetTable::HashFunction` (inet_table.cc is not
among the sources).  Per §4.1 the hash basis is defined once over the
group-address representation, so it hashes the prefix address value. -/
def InetTableHashFunction (p : Ip4Prefix) : Nat := boost_hash_value p.addr

/-- InetMVpnTable::Hash(const DBEntry *): hash of the route prefix, reduced
modulo the partition count. -/
def Hash_entry (partitionCount : Nat) (p : InetMVpnPrefix) : Nat :=
  HashFunction p % partitionCount

/-- InetMVpnTable::Hash(const DBRequestKey *): hash of `Ip4Prefix(group, 32)`
built from the key, reduced modulo the partition count. -/
def Hash_key (partitionCount : Nat) (k : InetMVpnPrefix) : Nat :=
  InetTableHashFunction ⟨k.group, 32⟩ % partitionCount

/-- Split a character list at every occurrence of the separator. -/
def splitOnChar (c : Char) : List Char → List (List Char)
  | [] => [[]]
  | x :: xs =>
    let r := splitOnChar c xs
    if x = c then [] :: r
    else
      match r with
      | [] => [[x]]
      | y :: ys => (x :: y) :: ys

/-- Parse a non-empty all-digit character list as a decimal number. -/
def digitsToNat? (cs : List Char) : Option Nat :=
  if cs = [] then none
  else if cs.all (fun c => c.isDigit) then
    some (cs.foldl (fun n c => n * 10 + (c.toNat - 48)) 0)
  else none

/-- Modelled from the spec: numeric encoding of the route-type discriminator
inside the canonical string form. -/
def routeTypeOfNat : Nat → Option RouteType
  | 0 => some RouteType.NativeRoute
  | 7 => some RouteType.CMcastRoute
  | 8 => some RouteType.TreeRoute
  | _ => none

/-- Modelled from the spec: `InetMVpnPrefix::FromString` (inetmvpn_route.cc
is not among the sources).  Parses the canonical form
`type-rd-group-source` and fails explicitly with `none` on malformed
input, per §4.2 and §7. -/
def FromString (s : String) : Option InetMVpnPrefix :=
  match splitOnChar (Char.ofNat 45) s.data with
  | [tp, rdp, gp, sp] => do
    let t ← digitsToNat? tp
    let rt ← routeTypeOfNat t
    let rd ← digitsToNat? rdp
    let g ← digitsToNat? gp
    let src ← digitsToNat? sp
    some ⟨rd, src, g, rt⟩
  | _ => none

/-- A BGP attribute as interned content: the source RD field and the
extended-community set (by id).  Interning is content-deduplicating, so
handle identity coincides with structural equality of this content. -/
structure BgpAttr where
  source_rd : RouteDistinguisher
  extComm : Nat
deriving DecidableEq, Repr

/-- A primary (directly learned) path as read by replication and export:
peer (null allowed), path id, path source, attribute handle, flags, label. -/
structure BgpPath where
  peer : Option Nat
  pathId : Nat
  source : Nat
  attr : BgpAttr
  flags : Nat
  label : Nat
deriving DecidableEq, Repr

/-- A secondary (replicated) path: the same payload plus replication
provenance (source table, source route) set by `SetReplicateInfo`. -/
structure SecondaryPath where
  peer : Option Nat
  pathId : Nat
  source : Nat
  attr : BgpAttr
  flags : Nat
  label : Nat
  srcTable : Nat
  srcRoute : Nat
deriving DecidableEq, Repr

/-- A route of this table: its prefix, its ordered path list (front is best,
per the external ranking), and the deletion mark. -/
structure BgpRoute where
  pfx : InetMVpnPrefix
  paths : List SecondaryPath
  deleted : Bool
deriving DecidableEq, Repr

/-- InetMVpnTable::AllocEntryStr: parse the string form and construct an
empty route for the resulting prefix; parse failure propagates as `none`. -/
def AllocEntryStr (key_str : String) : Option BgpRoute :=
  (FromString key_str).map fun p => ⟨p, [], false⟩

/-- The result of an export decision: content to advertise plus the target
peer-index set (`RibPeerSet` modelled as a list of indices). -/
structure UpdateInfo where
  target : List Nat
  content : Nat
deriving DecidableEq, Repr

/-- The tree manager as observed by the table: its deleter state
(`deleter()->IsDeleted()`) and the update-info it computes for a native
route (`GetUpdateInfo`), modelled from the spec as collaborator state. -/
structure McastTreeManager where
  isDeleted : Bool
  uinfo : Option UpdateInfo
deriving DecidableEq, Repr

/-- A fresh manager from `BgpObjectFactory::Create` plus its initial set-up,
modelled from the spec: live (not being deleted), no tree yet. -/
def newTreeManager : McastTreeManager := ⟨false, none⟩

/-- InetMVpnTable::CreateTreeManager: a no-op for the default instance;
creating over an existing manager trips `assert(!tree_manager_)`, modelled
as `none` (fault). -/
def CreateTreeManager (isDefault : Bool) (tm : Option McastTreeManager) :
    Option (Option McastTreeManager) :=
  if isDefault then some tm
  else
    match tm with
    | some _ => none
    | none => some (some newTreeManager)

/-- InetMVpnTable::DestroyTreeManager: a no-op for the default instance;
terminating an absent manager dereferences a null pointer, modelled as
`none` (fault). -/
def DestroyTreeManager (isDefault : Bool) (tm : Option McastTreeManager) :
    Option (Option McastTreeManager) :=
  if isDefault then some tm
  else
    match tm with
    | none => none
    | some _ => some none

/-- InetMVpnTable::set_routing_instance: record the instance (base-class
work, out of scope) and then create the tree manager. -/
def set_routing_instance (isDefault : Bool) (tm : Option McastTreeManager) :
    Option (Option McastTreeManager) :=
  CreateTreeManager isDefault tm

/-- The output channel (`RibOut`) as read by export: its encoding, the set
of registered peers, and the peer-index assignment. -/
structure RibOut where
  encodingBgp : Bool
  registered : List Nat
  peerIndex : Nat → Nat

/-- RibOut::IsRegistered. -/
def IsRegistered (r : RibOut) (p : Nat) : Bool := r.registered.contains p

/-- Outcome of `Export`: an appended update, a not-sent report, or the
unchecked dereference of a null best-path pointer. -/
inductive ExportResult where
  | sent (u : UpdateInfo)
  | notSent
  | nullDeref
deriving DecidableEq, Repr

/-- The route as read by export: its prefix type and its ordered path list
(front is best; `BestPath()` reads the front, modelled from the spec). -/
structure ExportRoute where
  pfxType : RouteType
  paths : List BgpPath
deriving DecidableEq, Repr

/-- InetMVpnTable::Export.  `genericUpdateInfo` is the shared
`BgpTable::GetUpdateInfo` collaborator (external per §6), invoked on the
supplied peer set.  On the non-generic channel the checks follow the source
order: route type, tree manager presence and deleter state, best path peer
and registration, peer index membership, tree-manager update info. -/
def Export (tm : Option McastTreeManager) (ribout : RibOut) (route : ExportRoute)
    (peerset : List Nat) (genericUpdateInfo : List Nat → Option UpdateInfo) :
    ExportResult :=
  if ribout.encodingBgp then
    match genericUpdateInfo peerset with
    | none => ExportResult.notSent
    | some u => ExportResult.sent u
  else if route.pfxType ≠ RouteType.NativeRoute then ExportResult.notSent
  else
    match tm with
    | none => ExportResult.notSent
    | some m =>
      if m.isDeleted then ExportResult.notSent
      else
        match route.paths.head? with
        | none => ExportResult.nullDeref
        | some bp =>
          match bp.peer with
          | none => ExportResult.notSent
          | some p =>
            if ¬ IsRegistered ribout p then ExportResult.notSent
            else if ¬ peerset.contains (ribout.peerIndex p) then ExportResult.notSent
            else
              match m.uinfo with
              | none => ExportResult.notSent
              | some u =>
                ExportResult.sent { u with target := u.target.insert (ribout.peerIndex p) }

/-- A source route as read by replication: an identity (routes are shared
objects identified by pointer) and its prefix. -/
structure SrcRoute where
  rid : Nat
  pfx : InetMVpnPrefix
deriving DecidableEq, Repr

/-- Match predicate of `BgpRoute::FindSecondaryPath`, modelled from the
spec: the provenance tuple (source route, path source, peer, path id). -/
def pathMatches (srcRtId src : Nat) (peer : Option Nat) (pathId : Nat)
    (p : SecondaryPath) : Bool :=
  p.srcRoute == srcRtId && p.source == src && p.peer == peer && p.pathId == pathId

/-- BgpRoute::FindSecondaryPath, modelled from the spec: first path matching
the provenance tuple. -/
def FindSecondaryPath (r : BgpRoute) (srcRtId src : Nat) (peer : Option Nat)
    (pathId : Nat) : Option SecondaryPath :=
  r.paths.find? (pathMatches srcRtId src peer pathId)

/-- Remove the first element satisfying the predicate; `none` if absent. -/
def removeFirstP {α : Type} (q : α → Bool) : List α → Option (List α)
  | [] => none
  | x :: xs => if q x then some xs else (removeFirstP q xs).map (fun ys => x :: ys)

/-- BgpRoute::RemoveSecondaryPath, modelled from the spec: remove the path
matching the provenance tuple, reporting success. -/
def RemoveSecondaryPath (r : BgpRoute) (srcRtId src : Nat) (peer : Option Nat)
    (pathId : Nat) : Bool × BgpRoute :=
  match removeFirstP (pathMatches srcRtId src peer pathId) r.paths with
  | none => (false, r)
  | some ps => (true, { r with paths := ps })

/-- BgpRoute::InsertPath keeps the path list ordered by the external
best-path ranking (front is best), modelled from the spec with an explicit
ranking function. -/
def insertRanked (rank : SecondaryPath → Nat) (p : SecondaryPath) :
    List SecondaryPath → List SecondaryPath
  | [] => [p]
  | x :: xs => if rank p ≤ rank x then p :: x :: xs else x :: insertRanked rank p xs

/-- DBTablePartition::Find by prefix over the partition contents. -/
def findRoute (tbl : List BgpRoute) (p : InetMVpnPrefix) : Option BgpRoute :=
  tbl.find? (fun r => r.pfx == p)

/-- Store a route in the partition: replace in place when a route with the
same prefix exists (the in-place mutations of the source), append otherwise
(`DBTablePartition::Add`). -/
def storeRoute : List BgpRoute → BgpRoute → List BgpRoute
  | [], r => [r]
  | x :: xs, r => if x.pfx == r.pfx then r :: xs else x :: storeRoute xs r

/-- BgpAttrDB::ReplaceExtCommunityAndLocate: intern the source attribute
with its extended-community set replaced, returning the shared handle. -/
def ReplaceExtCommunityAndLocate (attr : BgpAttr) (community : Nat) : BgpAttr :=
  { attr with extComm := community }

/-- Result of `RouteReplicate`: the returned route (null allowed), the
partition contents afterwards, whether the partition was notified, and
whether the `assert(success)` on secondary-path removal held. -/
structure RepOut where
  dest : Option BgpRoute
  tbl : List BgpRoute
  notified : Bool
  assertOk : Bool
deriving DecidableEq, Repr

/-- The destination prefix computed by `RouteReplicate` before the partition
lookup: adopt the source path source RD in the default instance, force the
null RD otherwise (source lines 84-89). -/
def replicaPfx (thisDefault : Bool) (srcRt : SrcRoute) (srcPath : BgpPath) :
    InetMVpnPrefix :=
  if thisDefault then set_route_distinguisher srcRt.pfx srcPath.attr.source_rd
  else set_route_distinguisher srcRt.pfx null_rd

/-- The replicated secondary path built by `RouteReplicate` (payload copied
from the source path, interned attribute handle, provenance set by
`SetReplicateInfo`). -/
def replicatedPath (srcTableId : Nat) (srcRt : SrcRoute) (srcPath : BgpPath)
    (new_attr : BgpAttr) : SecondaryPath :=
  ⟨srcPath.peer, srcPath.pathId, srcPath.source, new_attr, srcPath.flags,
   srcPath.label, srcTableId, srcRt.rid⟩

/-- The destination route after `InsertPath` of the replicated path. -/
def insertedRoute (rank : SecondaryPath → Nat) (srcTableId : Nat) (srcRt : SrcRoute)
    (srcPath : BgpPath) (new_attr : BgpAttr) (dest0 : BgpRoute) : BgpRoute :=
  { dest0 with
    paths := insertRanked rank (replicatedPath srcTableId srcRt srcPath new_attr) dest0.paths }

/-- Tail of `RouteReplicate`: insert the replicated path on the destination
route, store the route, and notify the partition exactly when the inserted
path became the route front (source lines 122-132). -/
def replicateInsert (rank : SecondaryPath → Nat) (tbl : List BgpRoute)
    (srcTableId : Nat) (srcRt : SrcRoute) (srcPath : BgpPath) (new_attr : BgpAttr)
    (dest0 : BgpRoute) (ok : Bool) : RepOut :=
  ⟨some (insertedRoute rank srcTableId srcRt srcPath new_attr dest0),
   storeRoute tbl (insertedRoute rank srcTableId srcRt srcPath new_attr dest0),
   (insertedRoute rank srcTableId srcRt srcPath new_attr dest0).paths.head?
     == some (replicatedPath srcTableId srcRt srcPath new_attr),
   ok⟩

/-- The destination route located or created by `RouteReplicate`: reuse an
existing route for the target prefix with its deletion mark cleared, or a
fresh empty route (source lines 92-100). -/
def destRoute0 (thisDefault : Bool) (tbl : List BgpRoute) (srcRt : SrcRoute)
    (srcPath : BgpPath) : BgpRoute :=
  match findRoute tbl (replicaPfx thisDefault srcRt srcPath) with
  | none => ⟨replicaPfx thisDefault srcRt srcPath, [], false⟩
  | some r => { r with deleted := false }

/-- Secondary-path reconciliation of `RouteReplicate` on the located
destination route (source lines 102-134): keep an identical-attribute
secondary path, otherwise remove the stale one (asserting success) and
insert the freshly built replicated path. -/
def replicateOnRoute (rank : SecondaryPath → Nat) (tbl : List BgpRoute)
    (srcTableId : Nat) (srcRt : SrcRoute) (srcPath : BgpPath) (community : Nat)
    (dest0 : BgpRoute) : RepOut :=
  match FindSecondaryPath dest0 srcRt.rid srcPath.source srcPath.peer srcPath.pathId with
  | some dp =>
    if ReplaceExtCommunityAndLocate srcPath.attr community = dp.attr then
      ⟨some dest0, storeRoute tbl dest0, false, true⟩
    else
      replicateInsert rank tbl srcTableId srcRt srcPath
        (ReplaceExtCommunityAndLocate srcPath.attr community)
        (RemoveSecondaryPath dest0 srcRt.rid srcPath.source srcPath.peer srcPath.pathId).2
        (RemoveSecondaryPath dest0 srcRt.rid srcPath.source srcPath.peer srcPath.pathId).1
  | none =>
    replicateInsert rank tbl srcTableId srcRt srcPath
      (ReplaceExtCommunityAndLocate srcPath.attr community) dest0 true

/-- InetMVpnTable::RouteReplicate over the destination partition contents
`tbl`.  `thisDefault` and `srcDefault` are the `IsDefault()` classifications
of this table and the source table; `rank` is the external best-path
ranking used by `InsertPath`. -/
def RouteReplicate (rank : SecondaryPath → Nat) (thisDefault srcDefault : Bool)
    (tbl : List BgpRoute) (srcTableId : Nat) (srcRt : SrcRoute) (srcPath : BgpPath)
    (community : Nat) : RepOut :=
  if !thisDefault && !srcDefault then ⟨none, tbl, false, true⟩
  else if srcRt.pfx.rtype = RouteType.NativeRoute then ⟨none, tbl, false, true⟩
  else
    replicateOnRoute rank tbl srcTableId srcRt srcPath community
      (destRoute0 thisDefault tbl srcRt srcPath)

/-! Helper lemmas about the list operations used by the partition and the
path list. -/

theorem countP_insertRanked (rank : SecondaryPath → Nat) (q : SecondaryPath → Bool)
    (p : SecondaryPath) (l : List SecondaryPath) :
    (insertRanked rank p l).countP q = l.countP q + (if q p then 1 else 0) := by
  induction l with
  | nil => simp [insertRanked, List.countP_cons]
  | cons x xs ih =>
    simp only [insertRanked]
    split
    · simp [List.countP_cons]
    · simp [List.countP_cons, ih]
      omega

theorem find?_insertRanked (rank : SecondaryPath → Nat) (q : SecondaryPath → Bool)
    (p : SecondaryPath) (l : List SecondaryPath) (hq : q p = true)
    (hz : l.countP q = 0) :
    (insertRanked rank p l).find? q = some p := by
  induction l with
  | nil => simp [insertRanked, List.find?, hq]
  | cons x xs ih =>
    have hall := List.countP_eq_zero.mp hz
    have hx : q x = false := by simpa using hall x (List.mem_cons_self x xs)
    have hxs : xs.countP q = 0 :=
      List.countP_eq_zero.mpr fun a ha => hall a (List.mem_cons_of_mem x ha)
    simp only [insertRanked]
    split
    · simp [List.find?, hq]
    · simp [List.find?, hx]
      exact ih hxs

theorem mem_insertRanked (rank : SecondaryPath → Nat) (p a : SecondaryPath)
    (l : List SecondaryPath) :
    a ∈ insertRanked rank p l ↔ a = p ∨ a ∈ l := by
  induction l with
  | nil => simp [insertRanked]
  | cons x xs ih =>
    simp only [insertRanked]
    split
    · simp [or_comm, or_assoc, or_left_comm]
    · simp [ih]
      tauto

theorem removeFirstP_of_find? {α : Type} (q : α → Bool) (l : List α) (x : α)
    (h : l.find? q = some x) :
    ∃ l2, removeFirstP q l = some l2 ∧ l2.countP q + 1 = l.countP q ∧
      ∀ a ∈ l2, a ∈ l := by
  induction l with
  | nil => simp [List.find?] at h
  | cons y ys ih =>
    cases hqy : q y with
    | true =>
      refine ⟨ys, by simp [removeFirstP, hqy], by simp [List.countP_cons, hqy], ?_⟩
      intro a ha
      exact List.mem_cons_of_mem y ha
    | false =>
      rw [List.find?_cons_of_neg _ (by simp [hqy])] at h
      obtain ⟨l2, h1, h2, h3⟩ := ih h
      refine ⟨y :: l2, by simp [removeFirstP, hqy, h1], ?_, ?_⟩
      · simp [List.countP_cons, hqy]
        omega
      · intro a ha
        rcases List.mem_cons.mp ha with rfl | ha
        · exact List.mem_cons_self a ys
        · exact List.mem_cons_of_mem y (h3 a ha)

theorem countP_le_one_unique {α : Type} (q : α → Bool) (l : List α)
    (h : l.countP q ≤ 1) {x y : α} (hx : x ∈ l) (hqx : q x = true)
    (hy : y ∈ l) (hqy : q y = true) : x = y := by
  induction l with
  | nil => simp at hx
  | cons z zs ih =>
    cases hqz : q z with
    | true =>
      have hcons : (z :: zs).countP q = zs.countP q + 1 := by
        rw [List.countP_cons, hqz]
        simp
      rw [hcons] at h
      have hz : zs.countP q = 0 := by omega
      have hnx : ∀ a ∈ zs, ¬ q a = true := fun a ha => by
        simpa using List.countP_eq_zero.mp hz a ha
      rcases List.mem_cons.mp hx with rfl | hx2
      · rcases List.mem_cons.mp hy with rfl | hy2
        · rfl
        · exact absurd hqy (hnx y hy2)
      · exact absurd hqx (hnx x hx2)
    | false =>
      have hcons : (z :: zs).countP q = zs.countP q := by
        rw [List.countP_cons, hqz]
        simp
      rw [hcons] at h
      have h2 : zs.countP q ≤ 1 := h
      rcases List.mem_cons.mp hx with rfl | hx2
      · rw [hqz] at hqx
        exact absurd hqx (by simp)
      · rcases List.mem_cons.mp hy with rfl | hy2
        · rw [hqz] at hqy
          exact absurd hqy (by simp)
        · exact ih h2 hx2 hy2

theorem findRoute_storeRoute (tbl : List BgpRoute) (r : BgpRoute) :
    findRoute (storeRoute tbl r) r.pfx = some r := by
  induction tbl with
  | nil => simp [storeRoute, findRoute, List.find?]
  | cons x xs ih =>
    simp only [storeRoute]
    split
    · simp [findRoute, List.find?]
    · rename_i hx
      have hx2 : (x.pfx == r.pfx) = false := by simpa using hx
      simp only [findRoute] at ih ⊢
      rw [List.find?_cons]
      simp only [hx2]
      exact ih

theorem storeRoute_storeRoute (tbl : List BgpRoute) (r s : BgpRoute)
    (h : r.pfx = s.pfx) :
    storeRoute (storeRoute tbl r) s = storeRoute tbl s := by
  induction tbl with
  | nil => simp [storeRoute, h]
  | cons x xs ih =>
    simp only [storeRoute]
    split
    · rename_i hx
      have hx2 : (x.pfx == s.pfx) = true := by
        rw [beq_iff_eq] at hx ⊢
        rw [hx, h]
      simp only [storeRoute, h, beq_self_eq_true, if_true, hx2]
    · rename_i hx
      have hxr : x.pfx ≠ r.pfx := by simpa using hx
      have hx2 : (x.pfx == s.pfx) = false := by
        rw [beq_eq_false_iff_ne, ← h]
        exact hxr
      simp only [storeRoute, hx2, Bool.false_eq_true, if_false, ih]

theorem route_eta (r : BgpRoute) (h : r.deleted = false) :
    ({ r with deleted := false } : BgpRoute) = r := by
  cases r
  simp_all

/-! Claims about hashing, allocation and the tree-manager lifecycle. -/

/-- C5: the partition index computed by `Hash` over a full route prefix and
by `Hash` over a bare lookup key agree whenever they carry the same group
address, and both lie in `[0, PartitionCount)`. -/
theorem hash_entry_key_agree (pc : Nat) (hpc : 0 < pc) (p k : InetMVpnPrefix)
    (hg : p.group = k.group) (hv : p.group < 2 ^ 32) :
    Hash_entry pc p = Hash_key pc k ∧ Hash_entry pc p < pc ∧ Hash_key pc k < pc := by
  unfold Hash_entry Hash_key HashFunction InetTableHashFunction
  exact ⟨by rw [hg], Nat.mod_lt _ hpc, Nat.mod_lt _ hpc⟩

/-- Witness for C5 at a concrete partition count and group address. -/
theorem hash_entry_key_agree_witness :
    Hash_entry 16 ⟨1, 2, 224, RouteType.NativeRoute⟩
        = Hash_key 16 ⟨0, 0, 224, RouteType.CMcastRoute⟩ ∧
      Hash_entry 16 ⟨1, 2, 224, RouteType.NativeRoute⟩ < 16 ∧
      Hash_key 16 ⟨0, 0, 224, RouteType.CMcastRoute⟩ < 16 :=
  hash_entry_key_agree 16 (by decide) ⟨1, 2, 224, RouteType.NativeRoute⟩
    ⟨0, 0, 224, RouteType.CMcastRoute⟩ (by decide) (by decide)

/-- C9: constructing a route entry from the string form fails explicitly on
malformed input, and on success the route carries exactly the parsed
prefix, never a silently substituted default. -/
theorem allocEntryStr_explicit_failure (s : String) :
    (FromString s = none → AllocEntryStr s = none) ∧
    (∀ r, AllocEntryStr s = some r → FromString s = some r.pfx) := by
  unfold AllocEntryStr
  cases h : FromString s with
  | none => simp
  | some p =>
    refine ⟨by simp, ?_⟩
    intro r hr
    simp at hr
    rw [← hr]

/-- Witness for C9 at a concrete malformed string. -/
theorem allocEntryStr_explicit_failure_witness :
    AllocEntryStr "xyz" = none :=
  (allocEntryStr_explicit_failure "xyz").1 (by decide)

/-- C8: the tree manager exists iff the routing instance is non-default:
create and destroy are no-ops for the default instance, instance assignment
creates the manager exactly once for a non-default instance, a second
creation without an intervening destruction is a fault, and destroying an
absent manager of a non-default instance is a fault. -/
theorem treeManager_lifecycle :
    (∀ tm, CreateTreeManager true tm = some tm) ∧
    (∀ tm, DestroyTreeManager true tm = some tm) ∧
    (∀ m, CreateTreeManager false (some m) = none) ∧
    (∀ m, DestroyTreeManager false (some m) = some none) ∧
    (DestroyTreeManager false none = none) ∧
    (∀ d : Bool, set_routing_instance d none =
        some (if d then none else some newTreeManager)) := by
  refine ⟨fun tm => rfl, fun tm => ?_, fun m => rfl, fun m => rfl, rfl, fun d => ?_⟩
  · cases tm <;> rfl
  · cases d <;> rfl

/-- C7: on the generic encoding, Export delegates to the shared generic
update-info computation on the supplied peer set, reports not-sent exactly
when that computation yields nothing, appends the update and reports sent
otherwise, and never consults the tree manager. -/
theorem export_generic_delegates (tm : Option McastTreeManager) (ribout : RibOut)
    (route : ExportRoute) (peerset : List Nat)
    (g : List Nat → Option UpdateInfo) (henc : ribout.encodingBgp = true) :
    (Export tm ribout route peerset g = ExportResult.notSent ↔ g peerset = none) ∧
    (∀ u, g peerset = some u →
      Export tm ribout route peerset g = ExportResult.sent u) ∧
    (∀ tm2 : Option McastTreeManager,
      Export tm2 ribout route peerset g = Export tm ribout route peerset g) := by
  have key : ∀ tm0 : Option McastTreeManager,
      Export tm0 ribout route peerset g =
        match g peerset with
        | none => ExportResult.notSent
        | some u => ExportResult.sent u := by
    intro tm0
    unfold Export
    rw [henc]
    simp
  refine ⟨?_, ?_, fun tm2 => by rw [key, key]⟩
  · rw [key]
    cases hg : g peerset <;> simp
  · intro u hu
    rw [key, hu]

/-- Witness for C7 on a concrete generic-encoding channel. -/
theorem export_generic_delegates_witness :
    Export (some ⟨true, some ⟨[], 7⟩⟩) ⟨true, [], fun _ => 0⟩
      ⟨RouteType.NativeRoute, []⟩ [] (fun _ => none) = ExportResult.notSent :=
  (export_generic_delegates (some ⟨true, some ⟨[], 7⟩⟩) ⟨true, [], fun _ => 0⟩
    ⟨RouteType.NativeRoute, []⟩ [] (fun _ => none) rfl).1.mpr rfl

/-- C4: on the non-generic channel, Export on a NativeRoute with a best path
reports not-sent exactly when the tree manager is absent or being deleted,
the best path peer is null or unregistered, the peer index is outside the
peer set, or the tree manager yields no update info; otherwise it sets the
target bit for the peer index on that update info and reports sent. -/
theorem export_native_characterization
    (tm : Option McastTreeManager) (ribout : RibOut) (route : ExportRoute)
    (peerset : List Nat) (g : List Nat → Option UpdateInfo)
    (bp : BgpPath) (rest : List BgpPath)
    (henc : ribout.encodingBgp = false)
    (hty : route.pfxType = RouteType.NativeRoute)
    (hpaths : route.paths = bp :: rest) :
    (Export tm ribout route peerset g = ExportResult.notSent ↔
      ((∀ m, tm = some m → m.isDeleted = true) ∨
       (∀ p, bp.peer = some p → IsRegistered ribout p = false) ∨
       (∃ p, bp.peer = some p ∧ peerset.contains (ribout.peerIndex p) = false) ∨
       (∀ m, tm = some m → m.uinfo = none))) ∧
    (∀ m p u, tm = some m → m.isDeleted = false → bp.peer = some p →
      IsRegistered ribout p = true → peerset.contains (ribout.peerIndex p) = true →
      m.uinfo = some u →
      Export tm ribout route peerset g =
        ExportResult.sent ⟨u.target.insert (ribout.peerIndex p), u.content⟩) := by
  have hbp : route.paths.head? = some bp := by rw [hpaths]; rfl
  cases tm with
  | none =>
    have hval : Export none ribout route peerset g = ExportResult.notSent := by
      simp [Export, henc, hty, hbp]
    refine ⟨?_, ?_⟩
    · rw [hval]
      exact iff_of_true rfl (Or.inl (by simp))
    · intro m p u hm
      exact absurd hm (by simp)
  | some m =>
    cases hdel : m.isDeleted with
    | true =>
      have hval : Export (some m) ribout route peerset g = ExportResult.notSent := by
        simp [Export, henc, hty, hbp, hdel]
      refine ⟨?_, ?_⟩
      · rw [hval]
        refine iff_of_true rfl (Or.inl ?_)
        intro m2 hm2
        injection hm2 with h
        rw [← h]
        exact hdel
      · intro m2 p u hm2 hdel2 _ _ _ _
        injection hm2 with h
        rw [← h] at hdel2
        simp [hdel] at hdel2
    | false =>
      cases hpeer : bp.peer with
      | none =>
        have hval : Export (some m) ribout route peerset g = ExportResult.notSent := by
          simp [Export, henc, hty, hbp, hdel, hpeer]
        refine ⟨?_, ?_⟩
        · rw [hval]
          exact iff_of_true rfl (Or.inr (Or.inl (by simp [hpeer])))
        · intro m2 p u _ _ hpeer2 _ _ _
          exact absurd hpeer2 (by simp)
      | some p =>
        cases hreg : IsRegistered ribout p with
        | false =>
          have hval : Export (some m) ribout route peerset g = ExportResult.notSent := by
            simp [Export, henc, hty, hbp, hdel, hpeer, hreg]
          refine ⟨?_, ?_⟩
          · rw [hval]
            refine iff_of_true rfl (Or.inr (Or.inl ?_))
            intro p2 hp2
            injection hp2 with h
            rw [← h]
            exact hreg
          · intro m2 p2 u _ _ hpeer2 hreg2 _ _
            injection hpeer2 with h
            rw [← h] at hreg2
            simp [hreg] at hreg2
        | true =>
          cases hcont : peerset.contains (ribout.peerIndex p) with
          | false =>
            have hmem : ¬ ribout.peerIndex p ∈ peerset := by simpa using hcont
            have hval : Export (some m) ribout route peerset g = ExportResult.notSent := by
              simp [Export, henc, hty, hbp, hdel, hpeer, hreg, hmem]
            refine ⟨?_, ?_⟩
            · rw [hval]
              exact iff_of_true rfl (Or.inr (Or.inr (Or.inl ⟨p, rfl, hcont⟩)))
            · intro m2 p2 u _ _ hpeer2 _ hcont2 _
              injection hpeer2 with h
              rw [← h] at hcont2
              have hc : ribout.peerIndex p ∈ peerset := by simpa using hcont2
              exact absurd hc hmem
          | true =>
            cases hui : m.uinfo with
            | none =>
              have hval : Export (some m) ribout route peerset g = ExportResult.notSent := by
                simp [Export, henc, hty, hbp, hdel, hpeer, hreg, hcont, hui]
              refine ⟨?_, ?_⟩
              · rw [hval]
                refine iff_of_true rfl (Or.inr (Or.inr (Or.inr ?_)))
                intro m2 hm2
                injection hm2 with h
                rw [← h]
                exact hui
              · intro m2 p2 u hm2 _ _ _ _ hui2
                injection hm2 with h
                rw [← h] at hui2
                simp [hui] at hui2
            | some u =>
              have hmem : ribout.peerIndex p ∈ peerset := by simpa using hcont
              have hval : Export (some m) ribout route peerset g =
                  ExportResult.sent ⟨u.target.insert (ribout.peerIndex p), u.content⟩ := by
                simp [Export, henc, hty, hbp, hdel, hpeer, hreg, hmem, hui]
              refine ⟨?_, ?_⟩
              · rw [hval]
                refine iff_of_false (by simp) ?_
                rintro (h1 | h2 | h3 | h4)
                · have := h1 m rfl
                  simp [hdel] at this
                · have := h2 p rfl
                  simp [hreg] at this
                · obtain ⟨p2, hp2, hc2⟩ := h3
                  injection hp2 with h
                  rw [← h] at hc2
                  have hc : ¬ ribout.peerIndex p ∈ peerset := by simpa using hc2
                  exact absurd hmem hc
                · have := h4 m rfl
                  simp [hui] at this
              · intro m2 p2 u2 hm2 _ hpeer2 _ _ hui2
                injection hm2 with h
                injection hpeer2 with h2
                rw [← h] at hui2
                rw [hui] at hui2
                injection hui2 with h3
                rw [hval, ← h2, ← h3]

/-- Witness for C4 on a concrete registered peer in the peer set. -/
theorem export_native_characterization_witness :
    Export (some ⟨false, some ⟨[], 5⟩⟩) ⟨false, [1], fun _ => 0⟩
        ⟨RouteType.NativeRoute, [⟨some 1, 10, 2, ⟨9, 100⟩, 0, 0⟩]⟩ [0] (fun _ => none)
      = ExportResult.sent ⟨([] : List Nat).insert 0, 5⟩ :=
  (export_native_characterization (some ⟨false, some ⟨[], 5⟩⟩) ⟨false, [1], fun _ => 0⟩
      ⟨RouteType.NativeRoute, [⟨some 1, 10, 2, ⟨9, 100⟩, 0, 0⟩]⟩ [0] (fun _ => none)
      ⟨some 1, 10, 2, ⟨9, 100⟩, 0, 0⟩ [] rfl rfl rfl).2
    ⟨false, some ⟨[], 5⟩⟩ 1 ⟨[], 5⟩ rfl rfl rfl rfl rfl rfl

/-- C10: on the non-generic channel the best-path pointer is dereferenced
with no null check, so a non-empty path list is a precondition: with at
least one path the dereference is safe, while with none the export of a
live-tree-manager NativeRoute reaches the unchecked dereference. -/
theorem export_bestPath_precondition
    (tm : Option McastTreeManager) (ribout : RibOut) (route : ExportRoute)
    (peerset : List Nat) (g : List Nat → Option UpdateInfo) :
    (route.paths ≠ [] → Export tm ribout route peerset g ≠ ExportResult.nullDeref) ∧
    (∀ m, route.paths = [] → ribout.encodingBgp = false →
      route.pfxType = RouteType.NativeRoute → tm = some m → m.isDeleted = false →
      Export tm ribout route peerset g = ExportResult.nullDeref) := by
  have key : Export tm ribout route peerset g = ExportResult.nullDeref →
      route.paths.head? = none := by
    intro h
    unfold Export at h
    split at h
    · split at h <;> simp at h
    · split at h
      · simp at h
      · split at h
        · simp at h
        · split at h
          · simp at h
          · split at h
            · rename_i heq
              exact heq
            · split at h
              · simp at h
              · split at h
                · simp at h
                · split at h
                  · simp at h
                  · split at h <;> simp at h
  constructor
  · intro hne h
    have hh := key h
    cases hp : route.paths with
    | nil => exact hne hp
    | cons a l =>
      rw [hp] at hh
      simp at hh
  · intro m hp henc hty htm hdel
    subst htm
    simp [Export, henc, hty, hdel, hp]

/-- Witness for C10: a one-path route is safe; an empty route reaches the
dereference. -/
theorem export_bestPath_precondition_witness :
    Export (some ⟨false, none⟩) ⟨false, [], fun _ => 0⟩
        ⟨RouteType.NativeRoute, [⟨none, 0, 0, ⟨0, 0⟩, 0, 0⟩]⟩ [] (fun _ => none)
      ≠ ExportResult.nullDeref ∧
    Export (some ⟨false, none⟩) ⟨false, [], fun _ => 0⟩
        ⟨RouteType.NativeRoute, []⟩ [] (fun _ => none)
      = ExportResult.nullDeref :=
  ⟨(export_bestPath_precondition (some ⟨false, none⟩) ⟨false, [], fun _ => 0⟩
      ⟨RouteType.NativeRoute, [⟨none, 0, 0, ⟨0, 0⟩, 0, 0⟩]⟩ [] (fun _ => none)).1
      (by simp),
   (export_bestPath_precondition (some ⟨false, none⟩) ⟨false, [], fun _ => 0⟩
      ⟨RouteType.NativeRoute, []⟩ [] (fun _ => none)).2
      ⟨false, none⟩ rfl rfl rfl rfl rfl⟩

/-! Lemmas about the replication pipeline. -/

theorem pathMatches_replicatedPath (srcTableId : Nat) (srcRt : SrcRoute)
    (srcPath : BgpPath) (na : BgpAttr) :
    pathMatches srcRt.rid srcPath.source srcPath.peer srcPath.pathId
      (replicatedPath srcTableId srcRt srcPath na) = true := by
  simp [pathMatches, replicatedPath]

theorem RemoveSecondaryPath_eq_of_some (r : BgpRoute) (srcRtId src : Nat)
    (peer : Option Nat) (pathId : Nat) (l2 : List SecondaryPath)
    (h : removeFirstP (pathMatches srcRtId src peer pathId) r.paths = some l2) :
    RemoveSecondaryPath r srcRtId src peer pathId = (true, { r with paths := l2 }) := by
  unfold RemoveSecondaryPath
  rw [h]

theorem replicateOnRoute_post (rank : SecondaryPath → Nat) (tbl : List BgpRoute)
    (srcTableId : Nat) (srcRt : SrcRoute) (srcPath : BgpPath) (community : Nat)
    (dest0 : BgpRoute)
    (hinv : dest0.paths.countP
        (pathMatches srcRt.rid srcPath.source srcPath.peer srcPath.pathId) ≤ 1) :
    ∃ r n, replicateOnRoute rank tbl srcTableId srcRt srcPath community dest0
        = ⟨some r, storeRoute tbl r, n, true⟩ ∧
      r.pfx = dest0.pfx ∧ r.deleted = dest0.deleted ∧
      (∃ p, r.paths.find?
          (pathMatches srcRt.rid srcPath.source srcPath.peer srcPath.pathId) = some p ∧
        p.attr = ReplaceExtCommunityAndLocate srcPath.attr community) ∧
      r.paths.countP
        (pathMatches srcRt.rid srcPath.source srcPath.peer srcPath.pathId) = 1 := by
  have hqrp := pathMatches_replicatedPath srcTableId srcRt srcPath
    (ReplaceExtCommunityAndLocate srcPath.attr community)
  unfold replicateOnRoute FindSecondaryPath
  cases hfs : dest0.paths.find?
      (pathMatches srcRt.rid srcPath.source srcPath.peer srcPath.pathId) with
  | none =>
    have hz : dest0.paths.countP
        (pathMatches srcRt.rid srcPath.source srcPath.peer srcPath.pathId) = 0 := by
      refine List.countP_eq_zero.mpr ?_
      intro a ha
      simpa using List.find?_eq_none.mp hfs a ha
    refine ⟨insertedRoute rank srcTableId srcRt srcPath
        (ReplaceExtCommunityAndLocate srcPath.attr community) dest0, _,
      rfl, rfl, rfl,
      ⟨replicatedPath srcTableId srcRt srcPath
          (ReplaceExtCommunityAndLocate srcPath.attr community), ?_, rfl⟩, ?_⟩
    · simp only [insertedRoute]
      exact find?_insertRanked rank _ _ dest0.paths hqrp hz
    · simp only [insertedRoute]
      rw [countP_insertRanked, hz, hqrp]
      simp
  | some dp =>
    have hdpq : pathMatches srcRt.rid srcPath.source srcPath.peer srcPath.pathId dp
        = true := List.find?_some hfs
    have hdpmem : dp ∈ dest0.paths := List.mem_of_find?_eq_some hfs
    have hpos : 0 < dest0.paths.countP
        (pathMatches srcRt.rid srcPath.source srcPath.peer srcPath.pathId) :=
      List.countP_pos_iff.mpr ⟨dp, hdpmem, hdpq⟩
    dsimp only
    by_cases heq : ReplaceExtCommunityAndLocate srcPath.attr community = dp.attr
    · rw [if_pos heq]
      exact ⟨dest0, false, rfl, rfl, rfl, ⟨dp, hfs, heq.symm⟩, by omega⟩
    · obtain ⟨l2, hrem, hcnt, hsub⟩ := removeFirstP_of_find? _ dest0.paths dp hfs
      have hz2 : l2.countP
          (pathMatches srcRt.rid srcPath.source srcPath.peer srcPath.pathId) = 0 := by
        omega
      rw [if_neg heq,
        RemoveSecondaryPath_eq_of_some dest0 srcRt.rid srcPath.source srcPath.peer
          srcPath.pathId l2 hrem]
      refine ⟨insertedRoute rank srcTableId srcRt srcPath
          (ReplaceExtCommunityAndLocate srcPath.attr community)
          { dest0 with paths := l2 }, _,
        rfl, rfl, rfl,
        ⟨replicatedPath srcTableId srcRt srcPath
            (ReplaceExtCommunityAndLocate srcPath.attr community), ?_, rfl⟩, ?_⟩
      · simp only [insertedRoute]
        exact find?_insertRanked rank _ _ l2 hqrp hz2
      · simp only [insertedRoute]
        rw [countP_insertRanked, hz2, hqrp]
        simp

theorem destRoute0_pfx (thisDefault : Bool) (tbl : List BgpRoute) (srcRt : SrcRoute)
    (srcPath : BgpPath) :
    (destRoute0 thisDefault tbl srcRt srcPath).pfx
        = replicaPfx thisDefault srcRt srcPath ∧
      (destRoute0 thisDefault tbl srcRt srcPath).deleted = false := by
  unfold destRoute0
  cases hf : findRoute tbl (replicaPfx thisDefault srcRt srcPath) with
  | none => exact ⟨rfl, rfl⟩
  | some r0 =>
    refine ⟨?_, rfl⟩
    have := List.find?_some hf
    simpa using this

theorem destRoute0_inv (thisDefault : Bool) (tbl : List BgpRoute) (srcRt : SrcRoute)
    (srcPath : BgpPath) (q : SecondaryPath → Bool)
    (hinv : ∀ r0 ∈ tbl, r0.paths.countP q ≤ 1) :
    (destRoute0 thisDefault tbl srcRt srcPath).paths.countP q ≤ 1 := by
  unfold destRoute0
  cases hf : findRoute tbl (replicaPfx thisDefault srcRt srcPath) with
  | none => simp
  | some r0 => exact hinv r0 (List.mem_of_find?_eq_some hf)

theorem replicate_post (rank : SecondaryPath → Nat) (thisDefault srcDefault : Bool)
    (tbl : List BgpRoute) (srcTableId : Nat) (srcRt : SrcRoute) (srcPath : BgpPath)
    (community : Nat)
    (helig : (!thisDefault && !srcDefault) = false)
    (hnat : srcRt.pfx.rtype ≠ RouteType.NativeRoute)
    (hinv : ∀ r0 ∈ tbl, r0.paths.countP
        (pathMatches srcRt.rid srcPath.source srcPath.peer srcPath.pathId) ≤ 1) :
    ∃ r n, RouteReplicate rank thisDefault srcDefault tbl srcTableId srcRt srcPath community
        = ⟨some r, storeRoute tbl r, n, true⟩ ∧
      r.pfx = replicaPfx thisDefault srcRt srcPath ∧ r.deleted = false ∧
      (∃ p, r.paths.find?
          (pathMatches srcRt.rid srcPath.source srcPath.peer srcPath.pathId) = some p ∧
        p.attr = ReplaceExtCommunityAndLocate srcPath.attr community) ∧
      r.paths.countP
        (pathMatches srcRt.rid srcPath.source srcPath.peer srcPath.pathId) = 1 := by
  obtain ⟨r, n, heq, hpfx, hdel, hfind, hcount⟩ :=
    replicateOnRoute_post rank tbl srcTableId srcRt srcPath community
      (destRoute0 thisDefault tbl srcRt srcPath)
      (destRoute0_inv thisDefault tbl srcRt srcPath _ hinv)
  refine ⟨r, n, ?_, ?_, ?_, hfind, hcount⟩
  · unfold RouteReplicate
    rw [helig, if_neg hnat]
    simp only [Bool.false_eq_true, if_false]
    exact heq
  · rw [hpfx]
    exact (destRoute0_pfx thisDefault tbl srcRt srcPath).1
  · rw [hdel]
    exact (destRoute0_pfx thisDefault tbl srcRt srcPath).2

theorem replicate_ineligible (rank : SecondaryPath → Nat) (thisDefault srcDefault : Bool)
    (tbl : List BgpRoute) (srcTableId : Nat) (srcRt : SrcRoute) (srcPath : BgpPath)
    (community : Nat)
    (h : (!thisDefault && !srcDefault) = true
        ∨ srcRt.pfx.rtype = RouteType.NativeRoute) :
    RouteReplicate rank thisDefault srcDefault tbl srcTableId srcRt srcPath community
      = ⟨none, tbl, false, true⟩ := by
  unfold RouteReplicate
  rcases h with h | h
  · rw [h]
    simp
  · by_cases h1 : (!thisDefault && !srcDefault) = true
    · rw [h1]
      simp
    · rw [if_neg h1, if_pos h]

theorem replicate_eligible_eq (rank : SecondaryPath → Nat)
    (thisDefault srcDefault : Bool) (tbl : List BgpRoute) (srcTableId : Nat)
    (srcRt : SrcRoute) (srcPath : BgpPath) (community : Nat)
    (helig : (!thisDefault && !srcDefault) = false)
    (hnat : srcRt.pfx.rtype ≠ RouteType.NativeRoute) :
    RouteReplicate rank thisDefault srcDefault tbl srcTableId srcRt srcPath community
      = replicateOnRoute rank tbl srcTableId srcRt srcPath community
          (destRoute0 thisDefault tbl srcRt srcPath) := by
  unfold RouteReplicate
  rw [helig, if_neg hnat]
  simp

theorem RemoveSecondaryPath_shape (r : BgpRoute) (a b : Nat) (pe : Option Nat)
    (pid : Nat) :
    (RemoveSecondaryPath r a b pe pid).2.pfx = r.pfx ∧
      (RemoveSecondaryPath r a b pe pid).2.deleted = r.deleted := by
  unfold RemoveSecondaryPath
  cases removeFirstP (pathMatches a b pe pid) r.paths <;> exact ⟨rfl, rfl⟩

theorem replicateOnRoute_dest (rank : SecondaryPath → Nat) (tbl : List BgpRoute)
    (srcTableId : Nat) (srcRt : SrcRoute) (srcPath : BgpPath) (community : Nat)
    (dest0 : BgpRoute) (r : BgpRoute)
    (h : (replicateOnRoute rank tbl srcTableId srcRt srcPath community dest0).dest
        = some r) :
    r.pfx = dest0.pfx ∧ r.deleted = dest0.deleted := by
  unfold replicateOnRoute FindSecondaryPath at h
  split at h
  · split at h
    · have hr : dest0 = r := by simpa using h
      rw [← hr]
      exact ⟨rfl, rfl⟩
    · simp only [replicateInsert, insertedRoute] at h
      have hr := Option.some.inj h
      rw [← hr]
      exact RemoveSecondaryPath_shape dest0 srcRt.rid srcPath.source srcPath.peer
        srcPath.pathId
  · simp only [replicateInsert, insertedRoute] at h
    have hr := Option.some.inj h
    rw [← hr]
    exact ⟨rfl, rfl⟩

/-- C6: replication short-circuits to none with no state change, no
notification and no fault when both tables are non-default or the source
route is a NativeRoute; the checks precede any route creation or path
insertion. -/
theorem routeReplicate_short_circuit (rank : SecondaryPath → Nat)
    (thisDefault srcDefault : Bool) (tbl : List BgpRoute) (srcTableId : Nat)
    (srcRt : SrcRoute) (srcPath : BgpPath) (community : Nat)
    (h : (thisDefault = false ∧ srcDefault = false)
        ∨ srcRt.pfx.rtype = RouteType.NativeRoute) :
    RouteReplicate rank thisDefault srcDefault tbl srcTableId srcRt srcPath community
      = ⟨none, tbl, false, true⟩ := by
  apply replicate_ineligible
  rcases h with ⟨ha, hb⟩ | h
  · left
    rw [ha, hb]
    rfl
  · exact Or.inr h

/-- Witness for C6 at concrete non-default tables. -/
theorem routeReplicate_short_circuit_witness :
    RouteReplicate (fun _ => 0) false false [] 3
        ⟨42, ⟨5, 11, 22, RouteType.CMcastRoute⟩⟩ ⟨some 1, 10, 2, ⟨9, 100⟩, 0, 0⟩ 100
      = ⟨none, [], false, true⟩ :=
  routeReplicate_short_circuit (fun _ => 0) false false [] 3
    ⟨42, ⟨5, 11, 22, RouteType.CMcastRoute⟩⟩ ⟨some 1, 10, 2, ⟨9, 100⟩, 0, 0⟩ 100
    (Or.inl ⟨rfl, rfl⟩)

/-- C2: the RD of the replicated destination prefix is a pure function of
the destination table role and the source path: the source path source RD
for the default instance, the null RD otherwise. -/
theorem routeReplicate_rd_rewrite (rank : SecondaryPath → Nat)
    (thisDefault srcDefault : Bool) (tbl : List BgpRoute) (srcTableId : Nat)
    (srcRt : SrcRoute) (srcPath : BgpPath) (community : Nat) (r : BgpRoute)
    (h : (RouteReplicate rank thisDefault srcDefault tbl srcTableId srcRt srcPath
        community).dest = some r) :
    r.pfx.rd = if thisDefault then srcPath.attr.source_rd else null_rd := by
  by_cases hel : (!thisDefault && !srcDefault) = true
      ∨ srcRt.pfx.rtype = RouteType.NativeRoute
  · rw [replicate_ineligible rank thisDefault srcDefault tbl srcTableId srcRt srcPath
      community hel] at h
    simp at h
  · push_neg at hel
    have helig : (!thisDefault && !srcDefault) = false := by simpa using hel.1
    rw [replicate_eligible_eq rank thisDefault srcDefault tbl srcTableId srcRt srcPath
      community helig hel.2] at h
    obtain ⟨hpfx, _⟩ := replicateOnRoute_dest rank tbl srcTableId srcRt srcPath
      community (destRoute0 thisDefault tbl srcRt srcPath) r h
    rw [hpfx, (destRoute0_pfx thisDefault tbl srcRt srcPath).1]
    cases thisDefault <;> simp [replicaPfx, set_route_distinguisher]

/-- Witness for C2 at a concrete replication into the default instance. -/
theorem routeReplicate_rd_rewrite_witness :
    (⟨⟨9, 11, 22, RouteType.CMcastRoute⟩,
        [⟨some 1, 10, 2, ⟨9, 100⟩, 0, 0, 3, 42⟩], false⟩ : BgpRoute).pfx.rd
      = if (true : Bool) then (⟨9, 100⟩ : BgpAttr).source_rd else null_rd :=
  routeReplicate_rd_rewrite (fun _ => 0) true false [] 3
    ⟨42, ⟨5, 11, 22, RouteType.CMcastRoute⟩⟩ ⟨some 1, 10, 2, ⟨9, 100⟩, 0, 0⟩ 100
    ⟨⟨9, 11, 22, RouteType.CMcastRoute⟩, [⟨some 1, 10, 2, ⟨9, 100⟩, 0, 0, 3, 42⟩], false⟩
    (by decide)

/-- C3: under the invariant that the partition holds at most one secondary
path per provenance tuple, RouteReplicate never trips the removal assert,
and any returned destination route carries exactly one secondary path for
the tuple, that path holding the freshly interned attribute. -/
theorem routeReplicate_unique_secondary (rank : SecondaryPath → Nat)
    (thisDefault srcDefault : Bool) (tbl : List BgpRoute) (srcTableId : Nat)
    (srcRt : SrcRoute) (srcPath : BgpPath) (community : Nat)
    (hinv : ∀ r0 ∈ tbl, r0.paths.countP
        (pathMatches srcRt.rid srcPath.source srcPath.peer srcPath.pathId) ≤ 1) :
    (RouteReplicate rank thisDefault srcDefault tbl srcTableId srcRt srcPath
        community).assertOk = true ∧
    ∀ r, (RouteReplicate rank thisDefault srcDefault tbl srcTableId srcRt srcPath
        community).dest = some r →
      r.paths.countP
          (pathMatches srcRt.rid srcPath.source srcPath.peer srcPath.pathId) = 1 ∧
      ∀ p ∈ r.paths,
        pathMatches srcRt.rid srcPath.source srcPath.peer srcPath.pathId p = true →
        p.attr = ReplaceExtCommunityAndLocate srcPath.attr community := by
  by_cases hel : (!thisDefault && !srcDefault) = true
      ∨ srcRt.pfx.rtype = RouteType.NativeRoute
  · rw [replicate_ineligible rank thisDefault srcDefault tbl srcTableId srcRt srcPath
      community hel]
    refine ⟨rfl, ?_⟩
    intro r hr
    exact absurd hr (by simp)
  · push_neg at hel
    have helig : (!thisDefault && !srcDefault) = false := by simpa using hel.1
    obtain ⟨r0, n, heq, _, _, ⟨p, hfind, hattr⟩, hcount⟩ :=
      replicate_post rank thisDefault srcDefault tbl srcTableId srcRt srcPath
        community helig hel.2 hinv
    rw [heq]
    refine ⟨rfl, ?_⟩
    intro r hr
    have hrr : r0 = r := by simpa using hr
    subst hrr
    refine ⟨hcount, ?_⟩
    intro pp hpp hqpp
    have hpmem := List.mem_of_find?_eq_some hfind
    have hpq := List.find?_some hfind
    have hppp : pp = p :=
      countP_le_one_unique _ r0.paths (le_of_eq hcount) hpp hqpp hpmem hpq
    rw [hppp, hattr]

/-- Witness for C3 at a concrete replication. -/
theorem routeReplicate_unique_secondary_witness :
    (RouteReplicate (fun _ => 0) true false [] 3
        ⟨42, ⟨5, 11, 22, RouteType.CMcastRoute⟩⟩ ⟨some 1, 10, 2, ⟨9, 100⟩, 0, 0⟩
        200).assertOk = true ∧
    ∀ r, (RouteReplicate (fun _ => 0) true false [] 3
        ⟨42, ⟨5, 11, 22, RouteType.CMcastRoute⟩⟩ ⟨some 1, 10, 2, ⟨9, 100⟩, 0, 0⟩
        200).dest = some r →
      r.paths.countP (pathMatches 42 2 (some 1) 10) = 1 ∧
      ∀ p ∈ r.paths, pathMatches 42 2 (some 1) 10 p = true →
        p.attr = ReplaceExtCommunityAndLocate ⟨9, 100⟩ 200 :=
  routeReplicate_unique_secondary (fun _ => 0) true false [] 3
    ⟨42, ⟨5, 11, 22, RouteType.CMcastRoute⟩⟩ ⟨some 1, 10, 2, ⟨9, 100⟩, 0, 0⟩ 200
    (by simp)

/-- C1: an eligible replication repeated with the same source route, source
path and community returns the same destination route object both times,
leaves the partition state unchanged on the second call, does not notify
the partition a second time, and leaves exactly one secondary path for the
provenance tuple. -/
theorem routeReplicate_idempotent (rank : SecondaryPath → Nat)
    (thisDefault srcDefault : Bool) (tbl : List BgpRoute) (srcTableId : Nat)
    (srcRt : SrcRoute) (srcPath : BgpPath) (community : Nat)
    (h1 : thisDefault = true ∨ srcDefault = true)
    (h2 : srcRt.pfx.rtype ≠ RouteType.NativeRoute)
    (hinv : ∀ r0 ∈ tbl, r0.paths.countP
        (pathMatches srcRt.rid srcPath.source srcPath.peer srcPath.pathId) ≤ 1) :
    ∃ r n,
      RouteReplicate rank thisDefault srcDefault tbl srcTableId srcRt srcPath community
        = ⟨some r, storeRoute tbl r, n, true⟩ ∧
      RouteReplicate rank thisDefault srcDefault (storeRoute tbl r) srcTableId srcRt
          srcPath community
        = ⟨some r, storeRoute tbl r, false, true⟩ ∧
      r.paths.countP
        (pathMatches srcRt.rid srcPath.source srcPath.peer srcPath.pathId) = 1 := by
  have helig : (!thisDefault && !srcDefault) = false := by
    rcases h1 with h | h <;> simp [h]
  obtain ⟨r, n, heq, hpfx, hdel, ⟨p, hfind, hattr⟩, hcount⟩ :=
    replicate_post rank thisDefault srcDefault tbl srcTableId srcRt srcPath community
      helig h2 hinv
  refine ⟨r, n, heq, ?_, hcount⟩
  rw [replicate_eligible_eq rank thisDefault srcDefault (storeRoute tbl r) srcTableId
    srcRt srcPath community helig h2]
  have hd0 : destRoute0 thisDefault (storeRoute tbl r) srcRt srcPath = r := by
    unfold destRoute0
    rw [← hpfx, findRoute_storeRoute tbl r]
    exact route_eta r hdel
  rw [hd0]
  unfold replicateOnRoute FindSecondaryPath
  rw [hfind]
  dsimp only
  rw [if_pos hattr.symm]
  rw [storeRoute_storeRoute tbl r r rfl]

/-- Witness for C1 at a concrete replication repeated twice. -/
theorem routeReplicate_idempotent_witness :
    ∃ r n,
      RouteReplicate (fun _ => 0) true false [] 3
          ⟨42, ⟨5, 11, 22, RouteType.CMcastRoute⟩⟩ ⟨some 1, 10, 2, ⟨9, 100⟩, 0, 0⟩ 100
        = ⟨some r, storeRoute [] r, n, true⟩ ∧
      RouteReplicate (fun _ => 0) true false (storeRoute [] r) 3
          ⟨42, ⟨5, 11, 22, RouteType.CMcastRoute⟩⟩ ⟨some 1, 10, 2, ⟨9, 100⟩, 0, 0⟩ 100
        = ⟨some r, storeRoute [] r, false, true⟩ ∧
      r.paths.countP (pathMatches 42 2 (some 1) 10) = 1 :=
  routeReplicate_idempotent (fun _ => 0) true false [] 3
    ⟨42, ⟨5, 11, 22, RouteType.CMcastRoute⟩⟩ ⟨some 1, 10, 2, ⟨9, 100⟩, 0, 0⟩ 100
    (Or.inl rfl) (by decide) (by simp)

end InetMVpn
